import Mathlib

/-!
Shallow embedding of the osgEarth threading primitives, taken from
`src/osgEarth/Threading` (header) and `src/osgEarth/Threading.cpp`.

Conventions used throughout:
* Machine booleans become `Bool`; the C++ `T*` result pointer of
  `Future<T>` becomes `Option V` with `none` standing for the null
  pointer ("no value" sentinel).
* Code that blocks is modelled operationally: a blocking completion that
  cannot happen in the current state is `none` (the call stays blocked),
  a completed call is `some` of the post-state plus an observation.
* Every mutation in the source happens under the primitive's internal
  mutex, so a state-machine whose steps are atomic is a faithful model
  of the interleavings the mutex permits.
* Lock misuse (unlocking a lock/key the caller does not hold) is
  undefined behavior by the documented caller contract in the source;
  such steps are modelled as disabled (`none`).
-/

namespace Threading

/-- State of `Event` (Threading.cpp lines 222-288): the boolean `_set`
flag guarded by the event's mutex.  The field `signaled` embeds `_set`. -/
structure Event where
  signaled : Bool
deriving DecidableEq

/-- Embeds `Event::set()` (Threading.cpp 275-282): under the mutex, if
`_set` is false it becomes true and `notify_all` runs; otherwise nothing
happens.  The returned `Bool` records whether `notify_all` was called. -/
def Event.set (e : Event) : Event × Bool :=
  if e.signaled then (e, false) else ({ signaled := true }, true)

/-- Embeds `Event::reset()` (Threading.cpp 284-288): `_set = false`
unconditionally. -/
def Event.reset (_ : Event) : Event :=
  { signaled := false }

/-- Operational state of one `Event` together with the threads
interacting with its condition variable `_cond`:
`waiting`/`woken` count threads inside the untimed `wait()`
(blocked in `_cond.wait`, resp. notified but not yet resumed), and
`twaiting`/`twoken` count threads inside the timed `wait(timeout_ms)`
(blocked in `_cond.wait_for`, resp. notified but not yet resumed). -/
structure EvState where
  ev : Event
  waiting : Nat
  woken : Nat
  twaiting : Nat
  twoken : Nat
deriving DecidableEq

/-- Atomic transitions of an `Event` and its client threads. -/
inductive EvOp where
  | waitStart
  | waitResume
  | timedStart
  | timedResume
  | timedTimeout
  | setOp
  | resetOp
deriving DecidableEq

/-- Observation attached to a transition: `waitRet b` means a call to
`Event::wait()` returned, with the `_set` flag equal to `b` at the
moment of return; `timedRet r` means a call to `Event::wait(timeout_ms)`
returned the value `r`. -/
inductive EvObs where
  | silent
  | waitRet (signaledAtReturn : Bool)
  | timedRet (result : Bool)
deriving DecidableEq

/-- One atomic transition of the event system, embedding
`Event::wait()` (Threading.cpp 247-253), `Event::wait(unsigned)`
(255-264), `Event::set()` (275-282) and `Event::reset()` (284-288).

* `waitStart`: a thread enters `wait()`; it holds the mutex, and if
  `_set` it returns `true` at once (the flag is true at return),
  otherwise it blocks in `_cond.wait`.
* `waitResume`: a previously notified thread reacquires the mutex and
  returns `true`; the source performs no re-check of `_set` after the
  `if (!_set) _cond.wait(lock);` line, so the observation records
  whatever the flag happens to be at that moment.
* `timedStart`: a thread enters `wait(timeout_ms)`; if `_set` it
  returns `true` without blocking, otherwise it blocks in `wait_for`.
* `timedResume`: a notified timed waiter returns
  `cv_status::no_timeout`, i.e. `true`.
* `timedTimeout`: a timed waiter's timeout elapses while it is still
  blocked; `wait_for` returns `cv_status::timeout`, i.e. `false`.
* `setOp`: `Event::set()`; when it signals, `notify_all` moves every
  blocked waiter (timed and untimed) to the woken state.
* `resetOp`: `Event::reset()`. -/
def evStep (s : EvState) : EvOp → Option (EvState × EvObs)
  | EvOp.waitStart =>
      if s.ev.signaled then some (s, EvObs.waitRet true)
      else some ({ s with waiting := s.waiting + 1 }, EvObs.silent)
  | EvOp.waitResume =>
      match s.woken with
      | 0 => none
      | w + 1 => some ({ s with woken := w }, EvObs.waitRet s.ev.signaled)
  | EvOp.timedStart =>
      if s.ev.signaled then some (s, EvObs.timedRet true)
      else some ({ s with twaiting := s.twaiting + 1 }, EvObs.silent)
  | EvOp.timedResume =>
      match s.twoken with
      | 0 => none
      | w + 1 => some ({ s with twoken := w }, EvObs.timedRet true)
  | EvOp.timedTimeout =>
      match s.twaiting with
      | 0 => none
      | w + 1 => some ({ s with twaiting := w }, EvObs.timedRet false)
  | EvOp.setOp =>
      match Event.set s.ev with
      | (e', true) =>
          some ({ ev := e', waiting := 0, woken := s.woken + s.waiting,
                  twaiting := 0, twoken := s.twoken + s.twaiting }, EvObs.silent)
      | (e', false) => some ({ s with ev := e' }, EvObs.silent)
  | EvOp.resetOp => some ({ s with ev := Event.reset s.ev }, EvObs.silent)

/-- Initial state of a fresh `Event` (constructor sets `_set(false)`),
with no client thread inside a wait. -/
def evInit : EvState :=
  { ev := { signaled := false }, waiting := 0, woken := 0, twaiting := 0, twoken := 0 }

/-- Runs a list of event transitions, collecting the observations. -/
def runEv : EvState → List EvOp → Option (EvState × List EvObs)
  | s, [] => some (s, [])
  | s, op :: rest =>
      match evStep s op with
      | none => none
      | some (s', ob) =>
          match runEv s' rest with
          | none => none
          | some (sf, obs) => some (sf, ob :: obs)

/-- The shared cell behind a `Future<T>`/`Promise<T>` pair
(Threading header 190-302): the `RefEvent` `_ev`, the result pointer
`RefPtrRef::_obj` (an `osg::ref_ptr<T>`, `none` = null), and the
`osg::Referenced` reference count of the `RefPtrRef` block, i.e. how
many `Future` handles (the `Promise`'s internal one included) share the
cell. -/
structure RefCell (V : Type) where
  ev : Event
  obj : Option V
  refCount : Nat
deriving DecidableEq

/-- Cell made by `Future()` (header 202-205), as built inside a fresh
`Promise`: event unset, null result, one reference (the promise's own
`_future`). -/
def futureInit (V : Type) : RefCell V :=
  { ev := { signaled := false }, obj := none, refCount := 1 }

/-- Embeds the `Future` copy constructor (header 213): the cell is
shared and its reference count goes up by one. -/
def Future.copy {V : Type} (c : RefCell V) : RefCell V :=
  { c with refCount := c.refCount + 1 }

/-- Embeds destruction of one `Future` handle: the `osg::ref_ptr`
member releases its reference.  Destroying a `Promise` destroys its
internal `_future`, so it is the same operation on the cell. -/
def Promise.destroy {V : Type} (c : RefCell V) : RefCell V :=
  { c with refCount := c.refCount - 1 }

/-- Embeds `Future::isAvailable()` (header 216-218): `_ev->isSet()`. -/
def Future.isAvailable {V : Type} (c : RefCell V) : Bool :=
  c.ev.signaled

/-- Embeds `Future::isAbandoned()` (header 221-223):
`_objRef->referenceCount() == 1`. -/
def Future.isAbandoned {V : Type} (c : RefCell V) : Bool :=
  c.refCount == 1

/-- Embeds `Promise::isResolved()` (header 291-293): `_ev->isSet()`. -/
def Promise.isResolved {V : Type} (c : RefCell V) : Bool :=
  c.ev.signaled

/-- Embeds `Promise::isAbandoned()` (header 296-298):
`_objRef->referenceCount() == 1`. -/
def Promise.isAbandoned {V : Type} (c : RefCell V) : Bool :=
  c.refCount == 1

/-- Embeds `Promise::resolve(T* value)` (header 285-288): store the
value in the shared cell (`_objRef->_obj = value`), then signal the
event (`_ev->set()`). -/
def Promise.resolve {V : Type} (c : RefCell V) (value : Option V) : RefCell V :=
  { c with obj := value, ev := (Event.set c.ev).1 }

/-- Settled outcome of one iteration of the polling loop in
`Future::get()`: either the call returns a value (possibly the null
sentinel `none`), or it stays blocked and polls again. -/
inductive GetResult (V : Type) where
  | returns (val : Option V)
  | blocked
deriving DecidableEq

/-- Embeds `Future::get()` (header 226-230) evaluated against a cell
that no other thread is mutating:

    while(!_ev->wait(1000u))
        if (isAbandoned()) return 0L;
    return _objRef->_obj.get();

On a quiescent cell `_ev->wait(1000u)` returns `true` exactly when the
event is signaled (otherwise the one-second wait times out), so one
loop round returns `_obj` when signaled, returns null when abandoned,
and otherwise polls forever (`blocked`). -/
def Future.getStep {V : Type} (c : RefCell V) : GetResult V :=
  if c.ev.signaled then GetResult.returns c.obj
  else if Future.isAbandoned c then GetResult.returns none
  else GetResult.blocked

/-- Fuel-indexed version of the `Future::get()` polling loop on a
quiescent cell: `none` means the call has not returned within the
given number of one-second poll rounds. -/
def Future.getN {V : Type} : Nat → RefCell V → Option (Option V)
  | 0, _ => none
  | n + 1, c =>
      if c.ev.signaled then some c.obj
      else if Future.isAbandoned c then some none
      else Future.getN n c

/-- State of `Gate<T>` (header 332-364): the `_users` map from key to
active-holder count, modelled as an association list (no duplicate
keys), with `int` counts as in the source. -/
abbrev GateState (K : Type) : Type :=
  List (K × Int)

/-- Read of `_users[key]` as used in the guards: an absent key reads as
`0` (the value `unordered_map::operator[]` value-initializes). -/
def gateCount {K : Type} [DecidableEq K] : GateState K → K → Int
  | [], _ => 0
  | p :: rest, k => if p.1 = k then p.2 else gateCount rest k

/-- Write of `_users[key] = v`: replace the key's entry, inserting it
if absent (the `operator[]` insert-then-assign behavior). -/
def setCount {K : Type} [DecidableEq K] : GateState K → K → Int → GateState K
  | [], k, v => [(k, v)]
  | p :: rest, k, v => if p.1 = k then (k, v) :: rest else p :: setCount rest k v

/-- Embeds `_users.erase(key)`. -/
def eraseKey {K : Type} [DecidableEq K] : GateState K → K → GateState K
  | [], _ => []
  | p :: rest, k => if p.1 = k then rest else p :: eraseKey rest k

/-- Embeds the completion of `Gate::lock(T key)` (header 340-345): the
call completes only when `_users[key] > 0` no longer holds (otherwise
the thread waits on `_unlocked`), and then runs `++_users[key]`. -/
def Gate.lock {K : Type} [DecidableEq K] (g : GateState K) (k : K) : Option (GateState K) :=
  if 0 < gateCount g k then none
  else some (setCount g k (gateCount g k + 1))

/-- Embeds `Gate::unlock(T key)` (header 347-354): `--_users[key]`;
if the count reaches `0`, erase the entry and `notify_all` on
`_unlocked`.  The returned `Bool` records whether `notify_all` ran. -/
def Gate.unlock {K : Type} [DecidableEq K] (g : GateState K) (k : K) : GateState K × Bool :=
  if gateCount g k - 1 = 0 then (eraseKey g k, true)
  else (setCount g k (gateCount g k - 1), false)

/-- A complete `Gate` operation by some thread. -/
inductive GateOp (K : Type) where
  | lock (key : K)
  | unlock (key : K)
deriving DecidableEq

/-- One completed `Gate` operation.  An `unlock` of a key the caller
does not hold is excluded (disabled): releasing a lock one does not
hold is undefined behavior by the caller contract documented in the
source, so a well-formed trace contains an `unlock key` only while
`key` is held. -/
def Gate.step {K : Type} [DecidableEq K] (g : GateState K) :
    GateOp K → Option (GateState K × Bool)
  | GateOp.lock k => (Gate.lock g k).map (fun s => (s, false))
  | GateOp.unlock k =>
      if 0 < gateCount g k then some (Gate.unlock g k) else none

/-- Runs a list of completed gate operations from a given state. -/
def runGateFrom {K : Type} [DecidableEq K] : GateState K → List (GateOp K) → Option (GateState K)
  | g, [] => some g
  | g, op :: rest =>
      match Gate.step g op with
      | none => none
      | some (g', _) => runGateFrom g' rest

/-- Runs a list of completed gate operations from the empty map the
`Gate` constructor starts with. -/
def runGate {K : Type} [DecidableEq K] (ops : List (GateOp K)) : Option (GateState K) :=
  runGateFrom [] ops

/-- State of `ReadWriteMutex` (Threading.cpp 292-338): the `_writers`
and `_readers` counters (both `unsigned`, both `0` at construction). -/
structure ReadWriteMutex where
  writers : Nat
  readers : Nat
deriving DecidableEq

/-- A complete `ReadWriteMutex` operation by some thread. -/
inductive RWOp where
  | read_lock
  | read_unlock
  | write_lock
  | write_unlock
deriving DecidableEq

/-- One completed `ReadWriteMutex` operation, embedding
Threading.cpp 304-333.  A lock completes only when its wait guard has
become false; the returned `Bool` records whether `notify_all` ran on
`_unlocked`.  `read_unlock` while `_readers == 0` is excluded
(disabled): releasing a lock one does not hold is undefined behavior by
the caller contract, so well-formed traces pair every unlock with a
prior lock.  `write_unlock` is unconditional in the source
(`_writers = 0; notify_all();`) and is embedded as such. -/
def rwStep (s : ReadWriteMutex) : RWOp → Option (ReadWriteMutex × Bool)
  | RWOp.read_lock =>
      if 0 < s.writers then none
      else some ({ s with readers := s.readers + 1 }, false)
  | RWOp.read_unlock =>
      match s.readers with
      | 0 => none
      | r + 1 => some ({ s with readers := r }, r == 0)
  | RWOp.write_lock =>
      if 0 < s.writers ∨ 0 < s.readers then none
      else some ({ s with writers := s.writers + 1 }, false)
  | RWOp.write_unlock => some ({ s with writers := 0 }, true)

/-- Runs a list of completed operations from a given state. -/
def runRWFrom : ReadWriteMutex → List RWOp → Option ReadWriteMutex
  | s, [] => some s
  | s, op :: rest =>
      match rwStep s op with
      | none => none
      | some (s', _) => runRWFrom s' rest

/-- Runs a list of completed operations from the freshly constructed
state `_readers(0), _writers(0)`. -/
def runRW (ops : List RWOp) : Option ReadWriteMutex :=
  runRWFrom { writers := 0, readers := 0 } ops

/-- An `osg::Operation` as the `ThreadPool` sees it (header 412-452):
an opaque unit of work, identified here by `id`, whose `getKeep()`
flag — read after each execution — is `keep`. -/
structure PoolOp where
  id : Nat
  keep : Bool
deriving DecidableEq

/-- State of a `ThreadPool` (Threading.cpp 343-436): the FIFO `_queue`,
the `_done` flag, the log of executions performed so far (ids in
order), and the number of live worker threads. -/
structure PoolState where
  queue : List PoolOp
  done : Bool
  executed : List Nat
  threads : Nat
deriving DecidableEq

/-- One round of the worker loop of `ThreadPool::startThreads`
(Threading.cpp 377-412): if `_done`, the worker executes nothing (its
loop exits; modelled as a completed no-op step); otherwise it blocks
until the queue is non-empty (`none` while empty), then pops the front
operation, executes it exactly once (its id is appended to the log),
and pushes it back at the tail if and only if `getKeep()` is true. -/
def workerStep (s : PoolState) : Option PoolState :=
  if s.done then some s
  else
    match s.queue with
    | [] => none
    | op :: rest =>
        if op.keep then
          some { s with queue := rest ++ [op], executed := s.executed ++ [op.id] }
        else
          some { s with queue := rest, executed := s.executed ++ [op.id] }

/-- Iterates `workerStep`. -/
def iterateWorker : Nat → PoolState → Option PoolState
  | 0, s => some s
  | n + 1, s =>
      match workerStep s with
      | none => none
      | some s' => iterateWorker n s'

/-- Embeds `ThreadPool::stopThreads` (Threading.cpp 416-436), run by
the destructor: set `_done`, `notify_all` on `_block` (the returned
`Bool` records that broadcast), join and clear every worker thread,
then clear the queue without executing anything (the execution log is
untouched). -/
def stopThreads (s : PoolState) : PoolState × Bool :=
  ({ s with done := true, threads := 0, queue := [] }, true)

/-! ## Theorems -/

/-- C5: `Event::set()` moves the event from unsignaled to signaled and
wakes all blocked waiters (every thread blocked in a timed or untimed
wait is moved to the woken state); calling `set()` while the event is
already signaled leaves the state unchanged and performs no
notification; `Event::reset()` moves the event to unsignaled
unconditionally, from either state. -/
theorem event_set_reset (e : Event) (s : EvState) :
    (e.signaled = false → Event.set e = ({ signaled := true }, true)) ∧
    (e.signaled = true → Event.set e = (e, false)) ∧
    Event.reset e = { signaled := false } ∧
    (s.ev.signaled = false →
      evStep s EvOp.setOp =
        some ({ ev := { signaled := true }, waiting := 0, woken := s.woken + s.waiting,
                twaiting := 0, twoken := s.twoken + s.twaiting }, EvObs.silent)) ∧
    (s.ev.signaled = true → evStep s EvOp.setOp = some (s, EvObs.silent)) := by
  refine ⟨fun h => ?_, fun h => ?_, rfl, fun h => ?_, fun h => ?_⟩
  · simp [Event.set, h]
  · simp [Event.set, h]
  · simp [evStep, Event.set, h]
  · simp [evStep, Event.set, h]

/-- Closed witness for `event_set_reset`, at the unsignaled event and
the state of a freshly constructed event. -/
theorem event_set_reset_witness :
    Event.set { signaled := false } = ({ signaled := true }, true) ∧
    evStep evInit EvOp.setOp =
      some ({ ev := { signaled := true }, waiting := 0, woken := 0,
              twaiting := 0, twoken := 0 }, EvObs.silent) := by
  constructor
  · exact (event_set_reset { signaled := false } evInit).1 rfl
  · exact (event_set_reset { signaled := false } evInit).2.2.2.1 rfl

/-- C6 counterexample: `Event::wait()` can return while the event's
`_set` flag is false.  The source reads

    if (!_set) _cond.wait(lock);
    return true;

with no re-check of `_set` after the wakeup.  Trace: a thread enters
`wait()` on the unsignaled event and blocks; another thread calls
`set()` (flag true, waiter notified); a third calls `reset()` (flag
false) before the waiter reacquires the mutex; the waiter then resumes
and `wait()` returns with the flag false — the final observation is
`waitRet false`. -/
theorem wait_returns_while_unsignaled :
    runEv evInit [EvOp.waitStart, EvOp.setOp, EvOp.resetOp, EvOp.waitResume] =
      some ({ ev := { signaled := false }, waiting := 0, woken := 0,
              twaiting := 0, twoken := 0 },
            [EvObs.silent, EvObs.silent, EvObs.silent, EvObs.waitRet false]) ∧
    EvObs.waitRet false ≠ EvObs.waitRet true := by
  exact ⟨rfl, by decide⟩

/-- C6 (amended): `Event::wait()` returns immediately (with the flag
true) when the event is signaled at entry; otherwise it returns only
after being woken, and wake-ups are produced only by a `set()` call
that transitions the event from unsignaled to signaled.  Because the
source does not re-check `_set` after the wakeup, an interleaved
`reset()` can make the flag false again by the moment `wait()`
returns. -/
theorem wait_wakeup_only_by_set (s s' : EvState) (o : EvObs) :
    (s.ev.signaled = true → evStep s EvOp.waitStart = some (s, EvObs.waitRet true)) ∧
    (evStep s EvOp.waitResume ≠ none → 0 < s.woken) ∧
    (∀ op, evStep s op = some (s', o) → s.woken < s'.woken →
      op = EvOp.setOp ∧ s'.ev.signaled = true ∧ s.ev.signaled = false) := by
  refine ⟨fun h => by simp [evStep, h], fun h => ?_, fun op h hw => ?_⟩
  · rcases hwo : s.woken with _ | w
    · simp [evStep, hwo] at h
    · exact Nat.succ_pos w
  · cases op with
    | waitStart =>
        by_cases hsig : s.ev.signaled <;>
          simp [evStep, hsig] at h <;> rcases h with ⟨h1, h2⟩ <;>
            rw [← h1] at hw <;> simp at hw
    | waitResume =>
        rcases hwo : s.woken with _ | w <;> simp [evStep, hwo] at h
        rcases h with ⟨h1, h2⟩
        rw [← h1] at hw
        simp [hwo] at hw
    | timedStart =>
        by_cases hsig : s.ev.signaled <;>
          simp [evStep, hsig] at h <;> rcases h with ⟨h1, h2⟩ <;>
            rw [← h1] at hw <;> simp at hw
    | timedResume =>
        rcases hwo : s.twoken with _ | w <;> simp [evStep, hwo] at h
        rcases h with ⟨h1, h2⟩
        rw [← h1] at hw
        simp at hw
    | timedTimeout =>
        rcases hwo : s.twaiting with _ | w <;> simp [evStep, hwo] at h
        rcases h with ⟨h1, h2⟩
        rw [← h1] at hw
        simp at hw
    | setOp =>
        by_cases hsig : s.ev.signaled
        · simp [evStep, Event.set, hsig] at h
          rw [← h.1] at hw
          simp at hw
        · simp [evStep, Event.set, hsig] at h
          refine ⟨rfl, ?_, by simpa using hsig⟩
          rw [← h.1]
    | resetOp =>
        simp [evStep] at h
        rw [← h.1] at hw
        simp at hw

/-- Closed witness for `wait_wakeup_only_by_set`: a `wait()` entered
while the event is signaled returns at once with the flag true, and a
`set()` on the unsignaled initial state increases the woken count
only as a `set`-transition. -/
theorem wait_wakeup_only_by_set_witness :
    evStep { ev := { signaled := true }, waiting := 0, woken := 0,
             twaiting := 0, twoken := 0 } EvOp.waitStart =
      some ({ ev := { signaled := true }, waiting := 0, woken := 0,
              twaiting := 0, twoken := 0 }, EvObs.waitRet true) := by
  exact (wait_wakeup_only_by_set
    { ev := { signaled := true }, waiting := 0, woken := 0, twaiting := 0, twoken := 0 }
    evInit EvObs.silent).1 rfl

/-- C7: `Event::wait(timeout_ms)` (Threading.cpp 255-264) returns true
if the event is or becomes signaled before the timeout elapses and
false if the timeout elapses first; if the event is already signaled
when called it returns true without blocking at all (the state is
unchanged — the thread never joins the waiters).  A timed waiter woken
by `set()` sees `cv_status::no_timeout` and returns true; a timed
waiter whose timeout fires first returns false; `set()` on the
unsignaled event moves every blocked timed waiter to the woken state,
so a waiter signaled before its timeout returns true. -/
theorem timed_wait_semantics (s : EvState) :
    (s.ev.signaled = true → evStep s EvOp.timedStart = some (s, EvObs.timedRet true)) ∧
    (∀ w, s.twoken = w + 1 →
      evStep s EvOp.timedResume = some ({ s with twoken := w }, EvObs.timedRet true)) ∧
    (∀ w, s.twaiting = w + 1 →
      evStep s EvOp.timedTimeout = some ({ s with twaiting := w }, EvObs.timedRet false)) ∧
    (s.ev.signaled = false →
      evStep s EvOp.setOp =
        some ({ ev := { signaled := true }, waiting := 0, woken := s.woken + s.waiting,
                twaiting := 0, twoken := s.twoken + s.twaiting }, EvObs.silent)) := by
  refine ⟨fun h => by simp [evStep, h], fun w h => by simp [evStep, h],
    fun w h => by simp [evStep, h], fun h => by simp [evStep, Event.set, h]⟩

/-- Closed witness for `timed_wait_semantics`: a timed wait entered on
a signaled event returns true immediately, and a blocked timed waiter
whose timeout fires returns false. -/
theorem timed_wait_semantics_witness :
    evStep { ev := { signaled := true }, waiting := 0, woken := 0,
             twaiting := 0, twoken := 0 } EvOp.timedStart =
      some ({ ev := { signaled := true }, waiting := 0, woken := 0,
              twaiting := 0, twoken := 0 }, EvObs.timedRet true) ∧
    evStep { ev := { signaled := false }, waiting := 0, woken := 0,
             twaiting := 1, twoken := 0 } EvOp.timedTimeout =
      some ({ ev := { signaled := false }, waiting := 0, woken := 0,
              twaiting := 0, twoken := 0 }, EvObs.timedRet false) := by
  constructor
  · exact (timed_wait_semantics
      { ev := { signaled := true }, waiting := 0, woken := 0,
        twaiting := 0, twoken := 0 }).1 rfl
  · exact (timed_wait_semantics
      { ev := { signaled := false }, waiting := 0, woken := 0,
        twaiting := 1, twoken := 0 }).2.2.1 0 rfl

/-- Helper: the event stored by `Promise::resolve` is signaled, whether
or not it was signaled before (`Event::set` is idempotent on the
flag). -/
theorem Event.set_fst_signaled (e : Event) : (Event.set e).1.signaled = true := by
  cases e with
  | mk s => cases s <;> simp [Event.set]

/-- C1: once `Promise::resolve(v)` has executed — storing `v` in the
shared cell and signaling the event — `Future::get()` on any handle
sharing that cell returns exactly `v`, and `Future::isAvailable()`
returns true.  This holds on the cell produced by `resolve`, on a
further copy of a `Future` sharing it (any reference count), and even
after the `Promise` itself is destroyed, because `get()` tests the
event before the abandonment check. -/
theorem promise_resolve_get {V : Type} (c : RefCell V) (v : Option V) :
    Future.getStep (Promise.resolve c v) = GetResult.returns v ∧
    Future.isAvailable (Promise.resolve c v) = true ∧
    Future.getStep (Future.copy (Promise.resolve c v)) = GetResult.returns v ∧
    Future.getStep (Promise.destroy (Promise.resolve c v)) = GetResult.returns v := by
  refine ⟨?_, ?_, ?_, ?_⟩ <;>
    simp [Future.getStep, Future.isAvailable, Promise.resolve, Future.copy,
      Promise.destroy, Event.set_fst_signaled]

/-- C2 counterexample: two consumers each hold a copy of the `Future`
(reference count 3 with the promise's own handle), then the `Promise`
is destroyed unresolved (count drops to 2).  Each consumer's
`Future::isAbandoned()` now compares `2 == 1` and returns false, so
`Future::get()` — `while(!_ev->wait(1000u)) if (isAbandoned()) return 0L;`
— polls forever: it never returns the null sentinel (nor anything
else), refuting "every existing and future call to Future.get()
returns the null sentinel".  `getN 100` shows 100 poll rounds
without a return. -/
theorem promise_abandoned_two_futures :
    Future.getStep (Promise.destroy (Future.copy (Future.copy (futureInit Nat)))) =
      GetResult.blocked ∧
    Future.isAbandoned (Promise.destroy (Future.copy (Future.copy (futureInit Nat)))) =
      false ∧
    Future.getN 100 (Promise.destroy (Future.copy (Future.copy (futureInit Nat)))) =
      none ∧
    GetResult.blocked ≠ GetResult.returns (none : Option Nat) := by
  refine ⟨by decide, by decide, by decide, by decide⟩

/-- C2 (amended): if the `Promise` is destroyed with no resolution and
the shared cell's reference count has reached 1 — a single remaining
`Future` handle, the situation the reference-count test can detect —
then `Future::get()` returns the null "no value" sentinel; and
abandonment is detected, on the `Future` side and the `Promise` side
alike, exactly as the shared cell's reference count being equal to 1.
(With several surviving `Future` copies the count stays above 1 and
`get()` blocks forever instead of returning the sentinel.) -/
theorem promise_abandoned_sole_future {V : Type} (c : RefCell V)
    (hs : c.ev.signaled = false) (hr : c.refCount = 1) :
    Future.getStep c = GetResult.returns none ∧
    (∀ d : RefCell V, Future.isAbandoned d = true ↔ d.refCount = 1) ∧
    (∀ d : RefCell V, Promise.isAbandoned d = true ↔ d.refCount = 1) := by
  refine ⟨?_, fun d => ?_, fun d => ?_⟩
  · simp [Future.getStep, Future.isAbandoned, hs, hr]
  · simp [Future.isAbandoned]
  · simp [Promise.isAbandoned]

/-- Closed witness for `promise_abandoned_sole_future`: a consumer
takes the future of a fresh promise (count 2) and the promise dies
unresolved (count 1); `get()` returns the sentinel. -/
theorem promise_abandoned_sole_future_witness :
    Future.getStep (Promise.destroy (Future.copy (futureInit Nat))) =
      GetResult.returns none :=
  (promise_abandoned_sole_future (Promise.destroy (Future.copy (futureInit Nat)))
    rfl rfl).1

/-- C10: resolving a `Promise` with the null pointer signals the event,
so `Future::isAvailable()` and `Promise::isResolved()` return true, yet
`Future::get()` returns the same null "no value" sentinel that an
abandoned, never-resolved cell produces — at `get()`'s return value, a
null resolution is indistinguishable from an abandoned promise. -/
theorem resolve_null_is_sentinel {V : Type} (c : RefCell V) :
    Future.isAvailable (Promise.resolve c none) = true ∧
    Promise.isResolved (Promise.resolve c none) = true ∧
    Future.getStep (Promise.resolve c none) = GetResult.returns none ∧
    Future.getStep (Promise.destroy (Future.copy (futureInit V))) =
      GetResult.returns none := by
  refine ⟨?_, ?_, ?_, ?_⟩ <;>
    simp [Future.isAvailable, Promise.isResolved, Future.getStep, Future.isAbandoned,
      Promise.resolve, Promise.destroy, Future.copy, futureInit, Event.set_fst_signaled]

/-- Helper: an entry of `setCount g k v` is either `(k, v)` or an
entry of `g`. -/
theorem mem_setCount {K : Type} [DecidableEq K] (g : GateState K) (k : K) (v : Int)
    (p : K × Int) (hp : p ∈ setCount g k v) : p = (k, v) ∨ p ∈ g := by
  induction g with
  | nil =>
      simp only [setCount, List.mem_singleton] at hp
      exact Or.inl hp
  | cons q rest ih =>
      by_cases hq : q.1 = k
      · simp only [setCount, if_pos hq, List.mem_cons] at hp
        rcases hp with h | h
        · exact Or.inl h
        · exact Or.inr (List.mem_cons_of_mem _ h)
      · simp only [setCount, if_neg hq, List.mem_cons] at hp
        rcases hp with h | h
        · exact Or.inr (by simp [h])
        · rcases ih h with h1 | h1
          · exact Or.inl h1
          · exact Or.inr (List.mem_cons_of_mem _ h1)

/-- Helper: a key of `setCount g k v` is a key of `g` or is `k`. -/
theorem mem_keys_setCount {K : Type} [DecidableEq K] (g : GateState K) (k a : K) (v : Int)
    (h : a ∈ (setCount g k v).map Prod.fst) : a ∈ g.map Prod.fst ∨ a = k := by
  induction g with
  | nil =>
      simp only [setCount, List.map_cons, List.map_nil, List.mem_singleton] at h
      exact Or.inr h
  | cons q rest ih =>
      by_cases hq : q.1 = k
      · simp only [setCount, if_pos hq, List.map_cons, List.mem_cons] at h
        rcases h with h | h
        · exact Or.inr h
        · exact Or.inl (by simp only [List.map_cons, List.mem_cons]; exact Or.inr h)
      · simp only [setCount, if_neg hq, List.map_cons, List.mem_cons] at h
        rcases h with h | h
        · exact Or.inl (by simp [h])
        · rcases ih h with h1 | h1
          · exact Or.inl (by simp only [List.map_cons, List.mem_cons]; exact Or.inr h1)
          · exact Or.inr h1

/-- Helper: `setCount` keeps the keys of the map free of duplicates. -/
theorem nodup_setCount {K : Type} [DecidableEq K] (g : GateState K) (k : K) (v : Int)
    (hnd : (g.map Prod.fst).Nodup) : ((setCount g k v).map Prod.fst).Nodup := by
  induction g with
  | nil => simp [setCount]
  | cons q rest ih =>
      simp only [List.map_cons, List.nodup_cons] at hnd
      by_cases hq : q.1 = k
      · simp only [setCount, if_pos hq, List.map_cons, List.nodup_cons]
        exact ⟨by rw [← hq]; exact hnd.1, hnd.2⟩
      · simp only [setCount, if_neg hq, List.map_cons, List.nodup_cons]
        refine ⟨fun hmem => ?_, ih hnd.2⟩
        rcases mem_keys_setCount rest k q.1 v hmem with h1 | h1
        · exact hnd.1 h1
        · exact hq h1

/-- Helper: `eraseKey` removes entries, never adds them. -/
theorem eraseKey_sublist {K : Type} [DecidableEq K] (g : GateState K) (k : K) :
    (eraseKey g k).Sublist g := by
  induction g with
  | nil => exact List.Sublist.refl _
  | cons q rest ih =>
      by_cases hq : q.1 = k
      · simp only [eraseKey, if_pos hq]
        exact List.Sublist.cons q (List.Sublist.refl rest)
      · simp only [eraseKey, if_neg hq]
        exact List.Sublist.cons₂ q ih

/-- Helper: a key absent from the map reads as count `0`. -/
theorem gateCount_not_mem {K : Type} [DecidableEq K] (g : GateState K) (k : K)
    (h : k ∉ g.map Prod.fst) : gateCount g k = 0 := by
  induction g with
  | nil => rfl
  | cons q rest ih =>
      simp only [List.map_cons, List.mem_cons] at h
      push_neg at h
      have hq : ¬q.1 = k := fun hq => h.1 hq.symm
      simp only [gateCount, if_neg hq]
      exact ih h.2

/-- Helper: after `eraseKey g k` on a duplicate-free map, `k` reads as
count `0` — the entry really is gone. -/
theorem gateCount_eraseKey_self {K : Type} [DecidableEq K] (g : GateState K) (k : K)
    (hnd : (g.map Prod.fst).Nodup) : gateCount (eraseKey g k) k = 0 := by
  induction g with
  | nil => rfl
  | cons q rest ih =>
      simp only [List.map_cons, List.nodup_cons] at hnd
      by_cases hq : q.1 = k
      · simp only [eraseKey, if_pos hq]
        exact gateCount_not_mem rest k (by rw [← hq]; exact hnd.1)
      · simp only [eraseKey, if_neg hq, gateCount]
        exact ih hnd.2

/-- Helper: when every entry of the map carries count `1`, every key
reads as `0` or `1`. -/
theorem gateCount_zero_or_one {K : Type} [DecidableEq K] (g : GateState K)
    (h1 : ∀ p ∈ g, p.2 = 1) (k : K) : gateCount g k = 0 ∨ gateCount g k = 1 := by
  induction g with
  | nil => exact Or.inl rfl
  | cons q rest ih =>
      by_cases hq : q.1 = k
      · simp only [gateCount, if_pos hq]
        exact Or.inr (h1 q (List.mem_cons_self _ _))
      · simp only [gateCount, if_neg hq]
        exact ih (fun p hp => h1 p (List.mem_cons_of_mem _ hp))

/-- Helper: one completed gate operation preserves the invariant that
every entry of `_users` carries count exactly `1` and the keys are
free of duplicates. -/
theorem gateStep_preserves {K : Type} [DecidableEq K] (g g' : GateState K) (op : GateOp K)
    (b : Bool) (h1 : ∀ p ∈ g, p.2 = 1) (h2 : (g.map Prod.fst).Nodup)
    (h : Gate.step g op = some (g', b)) :
    (∀ p ∈ g', p.2 = 1) ∧ (g'.map Prod.fst).Nodup := by
  cases op with
  | lock k =>
      simp only [Gate.step, Gate.lock] at h
      by_cases hc : 0 < gateCount g k
      · rw [if_pos hc] at h
        simp at h
      · rw [if_neg hc] at h
        simp only [Option.map, Option.some.injEq, Prod.mk.injEq] at h
        obtain ⟨hg, hb⟩ := h
        have hzero : gateCount g k = 0 := by
          rcases gateCount_zero_or_one g h1 k with h0 | hone
          · exact h0
          · rw [hone] at hc
            exact absurd (by norm_num) hc
        subst hg
        constructor
        · intro p hp
          rcases mem_setCount g k (gateCount g k + 1) p hp with hpk | hpg
          · rw [hpk]
            simp [hzero]
          · exact h1 p hpg
        · exact nodup_setCount g k _ h2
  | unlock k =>
      simp only [Gate.step] at h
      by_cases hc : 0 < gateCount g k
      · rw [if_pos hc] at h
        have hone : gateCount g k = 1 := by
          rcases gateCount_zero_or_one g h1 k with h0 | h0
          · rw [h0] at hc
            exact absurd hc (by norm_num)
          · exact h0
        simp only [Gate.unlock, hone] at h
        norm_num at h
        obtain ⟨hg, hb⟩ := h
        subst hg
        constructor
        · intro p hp
          exact h1 p ((eraseKey_sublist g k).subset hp)
        · exact h2.sublist (List.Sublist.map Prod.fst (eraseKey_sublist g k))
      · rw [if_neg hc] at h
        simp at h

/-- Helper: running completed gate operations preserves the
count-one/duplicate-free invariant. -/
theorem runGateFrom_inv {K : Type} [DecidableEq K] :
    ∀ (ops : List (GateOp K)) (g g' : GateState K),
      (∀ p ∈ g, p.2 = 1) → (g.map Prod.fst).Nodup →
      runGateFrom g ops = some g' →
      (∀ p ∈ g', p.2 = 1) ∧ (g'.map Prod.fst).Nodup := by
  intro ops
  induction ops with
  | nil =>
      intro g g' h1 h2 h
      simp only [runGateFrom, Option.some.injEq] at h
      subst h
      exact ⟨h1, h2⟩
  | cons op rest ih =>
      intro g g' h1 h2 h
      simp only [runGateFrom] at h
      rcases hstep : Gate.step g op with _ | ⟨g1, b1⟩
      · rw [hstep] at h
        simp at h
      · rw [hstep] at h
        obtain ⟨hp1, hp2⟩ := gateStep_preserves g g1 op b1 h1 h2 hstep
        exact ih g1 g' hp1 hp2 h

/-- C3: over every trace of completed `Gate::lock`/`Gate::unlock`
operations from the freshly constructed gate, the gate never has two
simultaneous holders of a key (each key's holder count never exceeds
1, so a second `lock` of a held key cannot complete); every key present
in `_users` after a complete operation has count greater than 0; and
an `unlock(k)` performed while `k`'s count is 1 — bringing it to 0 —
erases `k`'s entry (its count reads as 0 afterwards) and runs
`notify_all`, waking all waiters. -/
theorem gate_invariant {K : Type} [DecidableEq K] (ops : List (GateOp K))
    (g : GateState K) (h : runGate ops = some g) :
    (∀ p ∈ g, 0 < p.2) ∧
    (∀ k, gateCount g k ≤ 1) ∧
    (∀ k, gateCount g k = 1 →
      Gate.step g (GateOp.unlock k) = some (eraseKey g k, true) ∧
      gateCount (eraseKey g k) k = 0) := by
  obtain ⟨h1, h2⟩ := runGateFrom_inv ops [] g (by simp) (by simp) h
  refine ⟨fun p hp => by rw [h1 p hp]; norm_num, fun k => ?_, fun k hk => ?_⟩
  · rcases gateCount_zero_or_one g h1 k with h0 | h0 <;> simp [h0]
  · constructor
    · simp only [Gate.step, Gate.unlock, hk]
      norm_num
    · exact gateCount_eraseKey_self g k h2

/-- Closed witness for `gate_invariant`: two distinct keys are locked
(the gate admits them concurrently), then key `0` is unlocked; in the
resulting map every present key has a positive count, no key has two
holders, and unlocking key `1` erases it and broadcasts. -/
theorem gate_invariant_witness :
    runGate [GateOp.lock (0 : Nat), GateOp.lock 1, GateOp.unlock 0] =
      some [((1 : Nat), (1 : Int))] ∧
    gateCount [((1 : Nat), (1 : Int))] 1 ≤ 1 ∧
    Gate.step [((1 : Nat), (1 : Int))] (GateOp.unlock 1) = some ([], true) := by
  refine ⟨by decide, ?_, ?_⟩
  · exact (gate_invariant [GateOp.lock (0 : Nat), GateOp.lock 1, GateOp.unlock 0]
      [((1 : Nat), (1 : Int))] (by decide)).2.1 1
  · exact ((gate_invariant [GateOp.lock (0 : Nat), GateOp.lock 1, GateOp.unlock 0]
      [((1 : Nat), (1 : Int))] (by decide)).2.2 1 (by decide)).1

/-- Helper: one completed `ReadWriteMutex` operation preserves the
invariant `writers = 0 ∨ (writers = 1 ∧ readers = 0)`. -/
theorem rwStep_preserves (s s' : ReadWriteMutex) (op : RWOp) (b : Bool)
    (hinv : s.writers = 0 ∨ (s.writers = 1 ∧ s.readers = 0))
    (h : rwStep s op = some (s', b)) :
    s'.writers = 0 ∨ (s'.writers = 1 ∧ s'.readers = 0) := by
  cases op with
  | read_lock =>
      simp only [rwStep] at h
      split at h
      · simp at h
      · simp only [Option.some.injEq, Prod.mk.injEq] at h
        obtain ⟨hs, hb⟩ := h
        subst hs
        left
        show s.writers = 0
        omega
  | read_unlock =>
      simp only [rwStep] at h
      split at h
      · simp at h
      · simp only [Option.some.injEq, Prod.mk.injEq] at h
        obtain ⟨hs, hb⟩ := h
        subst hs
        left
        show s.writers = 0
        omega
  | write_lock =>
      simp only [rwStep] at h
      split at h
      · simp at h
      · simp only [Option.some.injEq, Prod.mk.injEq] at h
        obtain ⟨hs, hb⟩ := h
        subst hs
        right
        constructor
        · show s.writers + 1 = 1
          omega
        · show s.readers = 0
          omega
  | write_unlock =>
      simp only [rwStep, Option.some.injEq, Prod.mk.injEq] at h
      obtain ⟨hs, hb⟩ := h
      subst hs
      left
      rfl

/-- Helper: running completed `ReadWriteMutex` operations preserves
the invariant. -/
theorem runRWFrom_inv :
    ∀ (ops : List RWOp) (s s' : ReadWriteMutex),
      (s.writers = 0 ∨ (s.writers = 1 ∧ s.readers = 0)) →
      runRWFrom s ops = some s' →
      s'.writers = 0 ∨ (s'.writers = 1 ∧ s'.readers = 0) := by
  intro ops
  induction ops with
  | nil =>
      intro s s' hinv h
      simp only [runRWFrom, Option.some.injEq] at h
      subst h
      exact hinv
  | cons op rest ih =>
      intro s s' hinv h
      simp only [runRWFrom] at h
      rcases hstep : rwStep s op with _ | ⟨s1, b1⟩
      · rw [hstep] at h
        simp at h
      · rw [hstep] at h
        exact ih s1 s' (rwStep_preserves s s1 op b1 hinv hstep) h

/-- C4: across every sequence of completed
`read_lock`/`read_unlock`/`write_lock`/`write_unlock` operations from
the freshly constructed `ReadWriteMutex`, the invariant holds: while a
writer holds it the writer count is exactly 1 and the reader count is
0; while readers hold it the reader count is at least 1 and the writer
count is 0; writers and readers never hold simultaneously (and while
unlocked the writer count is 0, the only remaining case). -/
theorem rw_invariant (ops : List RWOp) (s : ReadWriteMutex)
    (h : runRW ops = some s) :
    (0 < s.writers → s.writers = 1 ∧ s.readers = 0) ∧
    (0 < s.readers → s.writers = 0) ∧
    ¬(0 < s.writers ∧ 0 < s.readers) := by
  have hinv := runRWFrom_inv ops { writers := 0, readers := 0 } s (Or.inl rfl) h
  refine ⟨fun hw => ?_, fun hr => ?_, fun hc => ?_⟩ <;> omega

/-- Closed witness for `rw_invariant`: after one completed
`write_lock` the writer count is 1 and no reader holds the lock. -/
theorem rw_invariant_witness :
    runRW [RWOp.write_lock] = some { writers := 1, readers := 0 } ∧
    ¬(0 < ({ writers := 1, readers := 0 } : ReadWriteMutex).writers ∧
      0 < ({ writers := 1, readers := 0 } : ReadWriteMutex).readers) := by
  constructor
  · decide
  · exact (rw_invariant [RWOp.write_lock] { writers := 1, readers := 0 } (by decide)).2.2

/-- Helper: a worker facing a single-entry queue holding a keeper
operation executes it once per round and requeues it, indefinitely:
after `n` rounds the operation has run exactly `n` times and is still
the sole queue entry. -/
theorem iterateWorker_keep (op : PoolOp) (hk : op.keep = true) :
    ∀ (n : Nat) (ex : List Nat) (t : Nat),
      iterateWorker n { queue := [op], done := false, executed := ex, threads := t } =
        some { queue := [op], done := false,
               executed := ex ++ List.replicate n op.id, threads := t } := by
  intro n
  induction n with
  | zero =>
      intro ex t
      simp [iterateWorker]
  | succ m ih =>
      intro ex t
      have hstep :
          workerStep { queue := [op], done := false, executed := ex, threads := t } =
            some { queue := [op], done := false, executed := ex ++ [op.id], threads := t } := by
        simp [workerStep, hk]
      simp only [iterateWorker, hstep]
      rw [ih (ex ++ [op.id]) t]
      simp [List.replicate_succ, List.append_assoc]

/-- C8: a worker dequeuing from a non-empty queue while the pool is
not shutting down (Threading.cpp 377-412) executes the front operation
exactly once (exactly one entry is appended to the execution log) and
re-enqueues it at the tail of the queue if and only if the operation's
`getKeep()` flag is true after execution; a `keep = false` operation
whose id is not elsewhere in the queue never appears in the queue
again; and a `keep = true` operation is executed once per round,
indefinitely, until the pool is shut down. -/
theorem worker_executes_and_requeues (s : PoolState) (op : PoolOp) (rest : List PoolOp)
    (hq : s.queue = op :: rest) (hd : s.done = false) :
    workerStep s = some { s with
      queue := rest ++ (if op.keep then [op] else []),
      executed := s.executed ++ [op.id] } ∧
    (op.keep = false → op.id ∉ rest.map PoolOp.id →
      op.id ∉ (rest ++ (if op.keep then [op] else [])).map PoolOp.id) ∧
    (op.keep = true → ∀ (n : Nat) (ex : List Nat) (t : Nat),
      iterateWorker n { queue := [op], done := false, executed := ex, threads := t } =
        some { queue := [op], done := false,
               executed := ex ++ List.replicate n op.id, threads := t }) := by
  refine ⟨?_, fun hk hmem => ?_, fun hk => iterateWorker_keep op hk⟩
  · cases hkeep : op.keep <;> simp [workerStep, hd, hq, hkeep]
  · simpa [hk] using hmem

/-- Closed witness for `worker_executes_and_requeues`: a `keep = false`
operation is dequeued, runs once, and is gone from the queue. -/
theorem worker_executes_and_requeues_witness :
    workerStep { queue := [{ id := 7, keep := false }], done := false,
                 executed := [], threads := 2 } =
      some { queue := [], done := false, executed := [7], threads := 2 } := by
  have h := (worker_executes_and_requeues
    { queue := [{ id := 7, keep := false }], done := false, executed := [], threads := 2 }
    { id := 7, keep := false } [] rfl rfl).1
  simpa using h

/-- C9: `ThreadPool::stopThreads` (run by the destructor,
Threading.cpp 416-436) sets the shutdown flag, broadcasts to wake all
workers, joins every worker thread (none remains), and discards every
operation still queued without executing it: the queue is empty
afterwards, the execution log is untouched, and no later worker round
ever executes anything (a worker that observes `_done` exits without
touching the queue). -/
theorem stopThreads_discards (s : PoolState) :
    (stopThreads s).1.done = true ∧
    (stopThreads s).1.threads = 0 ∧
    (stopThreads s).1.queue = [] ∧
    (stopThreads s).1.executed = s.executed ∧
    (stopThreads s).2 = true ∧
    (∀ n, iterateWorker n (stopThreads s).1 = some (stopThreads s).1) := by
  refine ⟨rfl, rfl, rfl, rfl, rfl, fun n => ?_⟩
  induction n with
  | zero => rfl
  | succ m ih =>
      simp only [iterateWorker, workerStep, stopThreads]
      simpa [stopThreads] using ih

end Threading
